import Mathlib

/-!
Shallow embedding of `generate-index.py`, the vFlow workflow repository index
generator, together with theorems about the claims of its specification.

The script reads every `*.json` file of a directory (skipping `index.json`),
validates a `_meta` block, rewrites each valid file with three runtime flags
forced to `false`, and writes a sorted catalog `index.json`.  File IO is
embedded by passing the directory contents in and returning the written
contents out; everything else is translated from the Python source.
-/

set_option linter.unusedVariables false

namespace VFlowIndex

/-- JSON values as produced by `json.load`.  Objects keep insertion order,
as Python dicts do.  Numbers are modelled as integers: no operation of the
script computes with a numeric value. -/
inductive JsonVal where
  | null
  | bool (b : Bool)
  | num (n : Int)
  | str (s : String)
  | arr (elems : List JsonVal)
  | obj (fields : List (String × JsonVal))

/-- A JSON object / Python dict: association list in insertion order.
Real dicts have unique keys; all operations below touch only the first
binding of a key, so the embedding is faithful on that invariant. -/
abbrev Doc := List (String × JsonVal)

/-- Python dict lookup of a key (first binding). -/
def lookup? : Doc → String → Option JsonVal
  | [], _ => none
  | (k, v) :: rest, key => if k == key then some v else lookup? rest key

/-- Python dict assignment `d[key] = v`: overwrite the existing binding in
place, otherwise append the new binding at the end. -/
def setField : Doc → String → JsonVal → Doc
  | [], key, v => [(key, v)]
  | (k, w) :: rest, key, v =>
    if k == key then (k, v) :: rest else (k, w) :: setField rest key v

/-- Python `suffix in s` test on character lists (substring containment). -/
def strContains (pat : List Char) : List Char → Bool
  | [] => pat.isEmpty
  | c :: rest => pat.isPrefixOf (c :: rest) || strContains pat rest

/-- Python `s.endswith(suffix)`. -/
def strEndsWith (s suffix : String) : Bool :=
  suffix.data.reverse.isPrefixOf s.data.reverse

/-- Python `s.replace(pat, rep)` for a nonempty pattern: replace every
non-overlapping occurrence, scanning left to right.  The fuel argument is
the length of the string, which bounds the number of steps. -/
def replaceFuel : Nat → List Char → List Char → List Char → List Char
  | 0, _, _, s => s
  | _ + 1, _, _, [] => []
  | fuel + 1, pat, rep, c :: rest =>
    if pat.isPrefixOf (c :: rest) then
      rep ++ replaceFuel fuel pat rep ((c :: rest).drop pat.length)
    else
      c :: replaceFuel fuel pat rep rest

/-- Python `s.replace(pat, rep)`. -/
def pyReplace (s pat rep : String) : String :=
  ⟨replaceFuel s.data.length pat.data rep.data s.data⟩

/-- Source function `normalize_id(filename)`:
`filename.replace(.json, empty) if filename.endswith(.json) else filename`.
Note that `str.replace` removes every occurrence of the substring `.json`,
not only the trailing extension. -/
def normalize_id (filename : String) : String :=
  if strEndsWith filename ".json" then pyReplace filename ".json" "" else filename

/-- Modelled from the spec: the expected identifier as the specification words
it, namely the filename with its trailing `.json` extension removed and
nothing else removed (identity on other filenames).  Used only to compare the
spec wording with the source function `normalize_id`. -/
def spec_strip_ext (filename : String) : String :=
  if strEndsWith filename ".json" then
    ⟨filename.data.take (filename.data.length - 5)⟩
  else filename

/-- Python membership test `key in v` on a JSON value: key lookup on a dict,
substring test on a string, element test on a list, and a `TypeError`
(modelled as `Except.error`) on the remaining types. -/
def pyIn (key : String) : JsonVal → Except Unit Bool
  | .obj fields => .ok (lookup? fields key).isSome
  | .str s => .ok (strContains key.data s.data)
  | .arr xs => .ok (xs.any fun v => match v with | .str t => t == key | _ => false)
  | _ => .error ()

/-- Python subscript `v[key]` with a string key: dict lookup (raising
`KeyError` when absent), and a `TypeError` on every non-dict value. -/
def pyGetItem : JsonVal → String → Except Unit JsonVal
  | .obj fields, key =>
    match lookup? fields key with
    | some v => .ok v
    | none => .error ()
  | _, _ => .error ()

/-- Python `v.get(key, dflt)`: dict lookup with default; an `AttributeError`
(modelled as `Except.error`) when the value is not a dict. -/
def pyDictGet : JsonVal → String → JsonVal → Except Unit JsonVal
  | .obj fields, key, dflt => .ok ((lookup? fields key).getD dflt)
  | _, _, _ => .error ()

/-- Python `v != expected` where `expected` is a string, negated: a JSON
value equals a string exactly when it is that string. -/
def jsonEqStr (v : JsonVal) (s : String) : Bool :=
  match v with
  | .str t => t == s
  | _ => false

/-- Validation error messages of `validate_workflow`, keeping exactly the
varying data that the formatted Python strings carry. -/
inductive ErrMsg where
  | missingMeta
  | missingFields (fields : List String)
  | idMismatch (expected : String) (actual : JsonVal)

/-- Result triple `(is_valid, error_message, cleaned_data)` returned by
`validate_workflow`. -/
structure ValidateResult where
  is_valid : Bool
  error_message : Option ErrMsg
  cleaned_data : Option JsonVal

/-- The list `required_meta_fields` of the source. -/
def required_meta_fields : List String :=
  ["id", "name", "description", "author", "version", "vFlowLevel"]

/-- List comprehension `[field for field in fields if field not in meta]`,
propagating the exception a membership test on a non-container raises. -/
def missingFields (meta : JsonVal) : List String → Except Unit (List String)
  | [] => .ok []
  | f :: rest =>
    match pyIn f meta with
    | .error e => .error e
    | .ok b =>
      match missingFields meta rest with
      | .error e => .error e
      | .ok ms => .ok (if b then ms else f :: ms)

/-- Source function `validate_workflow(data, filename)`.  `Except.error`
models an uncaught Python exception escaping the function. -/
def validate_workflow (data : JsonVal) (filename : String) :
    Except Unit ValidateResult :=
  match pyIn "_meta" data with
  | .error e => .error e
  | .ok hasMeta =>
    if !hasMeta then .ok ⟨false, some .missingMeta, none⟩
    else
      match pyGetItem data "_meta" with
      | .error e => .error e
      | .ok meta =>
        match missingFields meta required_meta_fields with
        | .error e => .error e
        | .ok missing =>
          if !missing.isEmpty then .ok ⟨false, some (.missingFields missing), none⟩
          else
            match pyGetItem meta "id" with
            | .error e => .error e
            | .ok meta_id =>
              if jsonEqStr meta_id (normalize_id filename) then
                .ok ⟨true, none, some data⟩
              else
                .ok ⟨false, some (.idMismatch (normalize_id filename) meta_id), none⟩

/-- True exactly when `validate_workflow` returned normally with
`is_valid = True`. -/
def isValidB (e : Except Unit ValidateResult) : Bool :=
  match e with
  | .ok r => r.is_valid
  | .error _ => false

/-- Source function `clean_workflow_for_repo(data)`: shallow-copy the dict
and force the three runtime flags to `false`. -/
def clean_workflow_for_repo (data : Doc) : Doc :=
  setField (setField (setField data "isEnabled" (.bool false))
    "isFavorite" (.bool false)) "wasEnabledBeforePermissionsLost" (.bool false)

/-- Outcome of `json.load` on a file: either a JSON value or a
`json.JSONDecodeError`. -/
inductive JContent where
  | malformed
  | json (v : JsonVal)

/-- A file of the scanned directory: its name and its parsed content. -/
structure JFile where
  name : String
  content : JContent

/-- Per-file error kinds in the `errors` list of `scan_directory`.  Each one
abstracts the formatted string the script appends, keeping the varying data:
the validation message, or the exception kind. -/
inductive ScanErr where
  | jsonDecode
  | validation (msg : Option ErrMsg)
  | exception

/-- A catalog entry as built by the loop body of `scan_directory`.  Values
taken from `_meta` are arbitrary JSON values. -/
structure Item where
  id : JsonVal
  name : JsonVal
  description : JsonVal
  author : JsonVal
  version : JsonVal
  vFlowLevel : JsonVal
  homepage : JsonVal
  tags : JsonVal
  updated_at : JsonVal
  filename : String
  download_url : String
  local_path : String

/-- Building the index entry dict of the loop body: nine `meta.get` reads
(each raising when `meta` is not a dict), the filename, the download URL and
the local path. -/
def buildItem (meta : JsonVal) (name dir : String) : Except Unit Item :=
  match pyDictGet meta "id" (.str (normalize_id name)) with
  | .error e => .error e
  | .ok idv =>
  match pyDictGet meta "name" (.str "未命名") with
  | .error e => .error e
  | .ok namev =>
  match pyDictGet meta "description" (.str "") with
  | .error e => .error e
  | .ok descv =>
  match pyDictGet meta "author" (.str "未知") with
  | .error e => .error e
  | .ok authorv =>
  match pyDictGet meta "version" (.str "1.0.0") with
  | .error e => .error e
  | .ok versionv =>
  match pyDictGet meta "vFlowLevel" (.num 1) with
  | .error e => .error e
  | .ok levelv =>
  match pyDictGet meta "homepage" (.str "") with
  | .error e => .error e
  | .ok homev =>
  match pyDictGet meta "tags" (.arr []) with
  | .error e => .error e
  | .ok tagsv =>
  match pyDictGet meta "updated_at" (.str "") with
  | .error e => .error e
  | .ok updv =>
    .ok ⟨idv, namev, descv, authorv, versionv, levelv, homev, tagsv, updv, name,
      "https://raw.githubusercontent.com/ChaoMixian/vFlow-Repos/main/workflows/" ++ name,
      dir ++ "/" ++ name⟩

/-- Rewriting step of the loop body: `clean_workflow_for_repo` applied to the
loaded dict.  Python would raise a `TypeError` on item assignment to a
non-dict; that point is unreachable after successful validation. -/
def cleanJson : JsonVal → Except Unit JsonVal
  | .obj d => .ok (.obj (clean_workflow_for_repo d))
  | _ => .error ()

/-- The valid branch of the loop body, in source order: extract `_meta` with
`data.get`, clean the workflow, build the index entry. -/
def processValid (data : JsonVal) (name dir : String) :
    Except Unit (Item × JsonVal) :=
  match pyDictGet data "_meta" (.obj []) with
  | .error e => .error e
  | .ok meta =>
    match cleanJson data with
    | .error e => .error e
    | .ok cleaned =>
      match buildItem meta name dir with
      | .error e => .error e
      | .ok item => .ok (item, cleaned)

/-- What one loop iteration of `scan_directory` contributes: at most one
catalog entry, the `errors.append` and `skipped_files.append` calls it runs,
and the on-disk state of the file after the iteration. -/
structure FileOutcome where
  item : Option Item
  errs : List (String × ScanErr)
  skips : List String
  outFile : JFile

/-- One loop iteration of `scan_directory` on one file: skip `index.json`,
record a decode error, validate, record a validation failure, or clean,
index, and rewrite the file; any other exception of the body is caught and
recorded.  The written-back content is what `json.dump` serialises. -/
def processFile (dir : String) (f : JFile) : FileOutcome :=
  if f.name == "index.json" then ⟨none, [], [], f⟩
  else
    match f.content with
    | .malformed => ⟨none, [(f.name, .jsonDecode)], [f.name], f⟩
    | .json data =>
      match validate_workflow data f.name with
      | .error _ => ⟨none, [(f.name, .exception)], [f.name], f⟩
      | .ok r =>
        if r.is_valid then
          match processValid data f.name dir with
          | .error _ => ⟨none, [(f.name, .exception)], [f.name], f⟩
          | .ok (item, cleaned) => ⟨some item, [], [], ⟨f.name, .json cleaned⟩⟩
        else ⟨none, [(f.name, .validation r.error_message)], [f.name], f⟩

/-- Result of `scan_directory`: the three returned lists, plus the post-run
content of the scanned files (same enumeration order as the input). -/
structure ScanResult where
  items : List Item
  errors : List (String × ScanErr)
  skipped_files : List String
  outFiles : List JFile

/-- The loop of `scan_directory` over the files the glob enumerated. -/
def scanFiles (dir : String) : List JFile → ScanResult
  | [] => ⟨[], [], [], []⟩
  | f :: rest =>
    let o := processFile dir f
    let r := scanFiles dir rest
    ⟨o.item.toList ++ r.items, o.errs ++ r.errors, o.skips ++ r.skipped_files,
      o.outFile :: r.outFiles⟩

/-- Source function `scan_directory(directory_path)`.  The directory is
embedded as `none` when it does not exist and otherwise as the list of
`*.json` files the glob enumerates, in enumeration order. -/
def scan_directory (dir : String) : Option (List JFile) → ScanResult
  | none => ⟨[], [], [], []⟩
  | some files => scanFiles dir files

/-- Sort key of `items.sort(key=lambda x: x[id-field])`.  Every entry carries
a string id (validation forces `_meta.id` to equal a string), so the
non-string branch is unreachable; Python would raise a `TypeError` comparing
mixed types. -/
def sortKey (it : Item) : String :=
  match it.id with
  | .str s => s
  | _ => ""

/-- Lexicographic less-or-equal on character lists by code point, the order
Python string comparison uses. -/
def lexLe : List Char → List Char → Bool
  | [], _ => true
  | _ :: _, [] => false
  | a :: as, b :: bs =>
    if a.toNat < b.toNat then true
    else if b.toNat < a.toNat then false
    else lexLe as bs

/-- Python `<=` on strings. -/
def strLe (a b : String) : Bool := lexLe a.data b.data

/-- Ordering of catalog entries used by the sort. -/
def itemLe (x y : Item) : Prop := strLe (sortKey x) (sortKey y) = true

instance : DecidableRel itemLe := fun x y => by unfold itemLe; infer_instance

/-- The catalog document `index` that the run serialises to `index.json`. -/
structure IndexDoc where
  version : String
  last_updated : String
  total_count : Nat
  workflows : List Item

/-- Observable outcome of a completed run of `generate_index`. -/
structure RunResult where
  index : IndexDoc
  outFiles : List JFile
  exitCode : Nat

/-- Exceptions that escape `generate_index` and abort the process. -/
inductive RunError where
  | fileNotFound

/-- The run of `generate_index` on an existing directory: scan, sort the
entries with the stable sort by id, build the catalog, write it, and exit
with status 1 exactly when the error list is nonempty. -/
def run_with_dir (dir : String) (files : List JFile) (now : String) : RunResult :=
  let s := scanFiles dir files
  let sorted := List.insertionSort itemLe s.items
  { index := { version := "1.0", last_updated := now,
               total_count := sorted.length, workflows := sorted },
    outFiles := s.outFiles,
    exitCode := if s.errors.isEmpty then 0 else 1 }

/-- Source function `generate_index(directory)`.  When the directory does not
exist the scan short-circuits to an empty result, but the subsequent
`open(directory/index.json, w)` raises `FileNotFoundError`, modelled as
`Except.error .fileNotFound`. -/
def generate_index (dir : String) (dirContents : Option (List JFile))
    (now : String) : Except RunError RunResult :=
  match dirContents with
  | none => .error .fileNotFound
  | some files => .ok (run_with_dir dir files now)

/-! ### Helper lemmas -/

theorem lookup_setField_self (d : Doc) (key : String) (v : JsonVal) :
    lookup? (setField d key v) key = some v := by
  induction d with
  | nil => simp [setField, lookup?]
  | cons kv rest ih =>
    obtain ⟨k, w⟩ := kv
    by_cases h : k == key
    · simp [setField, lookup?, h]
    · simp [setField, lookup?, h, ih]

theorem lookup_setField_ne (d : Doc) (key key' : String) (v : JsonVal)
    (h : key' ≠ key) : lookup? (setField d key v) key' = lookup? d key' := by
  induction d with
  | nil =>
    simp only [setField, lookup?]
    rw [if_neg]
    simp [beq_iff_eq]
    exact fun hk => h hk.symm
  | cons kv rest ih =>
    obtain ⟨k, w⟩ := kv
    by_cases hk : k == key
    · have hkeq : k = key := beq_iff_eq.mp hk
      subst hkeq
      have : ¬ (k == key') := by simp [beq_iff_eq]; exact fun hk2 => h hk2.symm
      simp [setField, lookup?, this]
    · simp [setField, lookup?, hk, ih]

theorem setField_setField_self (d : Doc) (key : String) (v w : JsonVal) :
    setField (setField d key v) key w = setField d key w := by
  induction d with
  | nil => simp [setField]
  | cons kv rest ih =>
    obtain ⟨k, u⟩ := kv
    by_cases h : k == key
    · have hkeq : k = key := beq_iff_eq.mp h
      subst hkeq
      simp [setField]
    · simp [setField, h, ih]

theorem setField_absorb (d : Doc) (key : String) (v : JsonVal)
    (h : lookup? d key = some v) : setField d key v = d := by
  induction d with
  | nil => simp [lookup?] at h
  | cons kv rest ih =>
    obtain ⟨k, w⟩ := kv
    by_cases hk : k == key
    · have hkeq : k = key := beq_iff_eq.mp hk
      subst hkeq
      simp [lookup?] at h
      simp [setField, h]
    · simp [lookup?, hk] at h
      simp [setField, hk, ih h]

theorem clean_isEnabled (d : Doc) :
    lookup? (clean_workflow_for_repo d) "isEnabled" = some (.bool false) := by
  unfold clean_workflow_for_repo
  rw [lookup_setField_ne _ _ _ _ (by decide), lookup_setField_ne _ _ _ _ (by decide),
    lookup_setField_self]

theorem clean_isFavorite (d : Doc) :
    lookup? (clean_workflow_for_repo d) "isFavorite" = some (.bool false) := by
  unfold clean_workflow_for_repo
  rw [lookup_setField_ne _ _ _ _ (by decide), lookup_setField_self]

theorem clean_wasEnabled (d : Doc) :
    lookup? (clean_workflow_for_repo d) "wasEnabledBeforePermissionsLost"
      = some (.bool false) := by
  unfold clean_workflow_for_repo
  rw [lookup_setField_self]

theorem clean_other (d : Doc) (k : String) (h1 : k ≠ "isEnabled")
    (h2 : k ≠ "isFavorite") (h3 : k ≠ "wasEnabledBeforePermissionsLost") :
    lookup? (clean_workflow_for_repo d) k = lookup? d k := by
  unfold clean_workflow_for_repo
  rw [lookup_setField_ne _ _ _ _ h3, lookup_setField_ne _ _ _ _ h2,
    lookup_setField_ne _ _ _ _ h1]

theorem clean_idem (d : Doc) :
    clean_workflow_for_repo (clean_workflow_for_repo d) = clean_workflow_for_repo d := by
  rw [show clean_workflow_for_repo (clean_workflow_for_repo d)
      = setField (setField (setField (clean_workflow_for_repo d)
          "isEnabled" (.bool false)) "isFavorite" (.bool false))
          "wasEnabledBeforePermissionsLost" (.bool false) from rfl,
    setField_absorb _ _ _ (clean_isEnabled d),
    setField_absorb _ _ _ (clean_isFavorite d),
    setField_absorb _ _ _ (clean_wasEnabled d)]

theorem jsonEqStr_true {v : JsonVal} {s : String} (h : jsonEqStr v s = true) :
    v = .str s := by
  cases v <;> simp [jsonEqStr] at h
  simp [h]

theorem missingFields_obj (m : Doc) (l : List String) :
    missingFields (.obj m) l = .ok (l.filter fun f => (lookup? m f).isNone) := by
  induction l with
  | nil => rfl
  | cons f rest ih =>
    cases h : lookup? m f <;>
      simp [missingFields, pyIn, ih, h, List.filter_cons]

theorem validate_of_shapes (d m : Doc) (fn : String)
    (hm : lookup? d "_meta" = some (.obj m))
    (hall : ∀ f ∈ required_meta_fields, (lookup? m f).isSome = true)
    (hid : lookup? m "id" = some (.str (normalize_id fn))) :
    validate_workflow (.obj d) fn = .ok ⟨true, none, some (.obj d)⟩ := by
  have hfil : (required_meta_fields.filter fun f => (lookup? m f).isNone) = [] := by
    rw [List.filter_eq_nil_iff]
    intro f hf
    have h1 := hall f hf
    intro hc
    rw [Option.isNone_iff_eq_none] at hc
    rw [hc] at h1
    simp at h1
  simp [validate_workflow, pyIn, hm, pyGetItem, missingFields_obj, hfil, hid, jsonEqStr]

theorem shapes_of_valid (data : JsonVal) (fn : String)
    (h : isValidB (validate_workflow data fn) = true) :
    ∃ d m, data = .obj d ∧ lookup? d "_meta" = some (.obj m) ∧
      (∀ f ∈ required_meta_fields, (lookup? m f).isSome = true) ∧
      lookup? m "id" = some (.str (normalize_id fn)) := by
  cases data with
  | null => simp [validate_workflow, pyIn, isValidB] at h
  | bool b => simp [validate_workflow, pyIn, isValidB] at h
  | num n => simp [validate_workflow, pyIn, isValidB] at h
  | str s =>
    by_cases hb : strContains "_meta".data s.data <;>
      simp [validate_workflow, pyIn, pyGetItem, isValidB, hb] at h
  | arr xs =>
    by_cases hb : xs.any fun v => match v with | .str t => t == "_meta" | _ => false <;>
      simp [validate_workflow, pyIn, pyGetItem, isValidB, hb] at h
  | obj d =>
    cases hm : lookup? d "_meta" with
    | none => simp [validate_workflow, pyIn, isValidB, hm] at h
    | some m =>
      cases m with
      | null => simp [validate_workflow, pyIn, pyGetItem, isValidB, hm, missingFields] at h
      | bool b => simp [validate_workflow, pyIn, pyGetItem, isValidB, hm, missingFields] at h
      | num n => simp [validate_workflow, pyIn, pyGetItem, isValidB, hm, missingFields] at h
      | str s =>
        rcases hms : missingFields (.str s) required_meta_fields with e | ms
        · simp [validate_workflow, pyIn, pyGetItem, isValidB, hm, hms] at h
        · cases ms <;>
            simp [validate_workflow, pyIn, pyGetItem, isValidB, hm, hms] at h
      | arr ys =>
        rcases hms : missingFields (.arr ys) required_meta_fields with e | ms
        · simp [validate_workflow, pyIn, pyGetItem, isValidB, hm, hms] at h
        · cases ms <;>
            simp [validate_workflow, pyIn, pyGetItem, isValidB, hm, hms] at h
      | obj mf =>
        by_cases hfil : (required_meta_fields.filter fun f => (lookup? mf f).isNone) = []
        · have hall : ∀ f ∈ required_meta_fields, (lookup? mf f).isSome = true := by
            intro f hf
            have h2 := List.filter_eq_nil_iff.mp hfil f hf
            cases hl : lookup? mf f with
            | none => rw [hl] at h2; simp at h2
            | some v => rfl
          cases hid : lookup? mf "id" with
          | none =>
            simp [validate_workflow, pyIn, pyGetItem, isValidB, hm,
              missingFields_obj, hfil, hid] at h
          | some v =>
            by_cases hjs : jsonEqStr v (normalize_id fn) = true
            · exact ⟨d, mf, rfl, hm, hall, by rw [hid, jsonEqStr_true hjs]⟩
            · simp [validate_workflow, pyIn, pyGetItem, isValidB, hm,
                missingFields_obj, hfil, hid, hjs] at h
        · simp [validate_workflow, pyIn, pyGetItem, isValidB, hm,
            missingFields_obj, hfil] at h

theorem valid_eq_ok (data : JsonVal) (fn : String)
    (h : isValidB (validate_workflow data fn) = true) :
    validate_workflow data fn = .ok ⟨true, none, some data⟩ := by
  obtain ⟨d, m, rfl, hm, hall, hid⟩ := shapes_of_valid data fn h
  exact validate_of_shapes d m fn hm hall hid

theorem valid_char (data : JsonVal) (fn : String) :
    isValidB (validate_workflow data fn) = true ↔
      ∃ d m, data = .obj d ∧ lookup? d "_meta" = some (.obj m) ∧
        (∀ f ∈ required_meta_fields, (lookup? m f).isSome = true) ∧
        lookup? m "id" = some (.str (normalize_id fn)) := by
  constructor
  · exact shapes_of_valid data fn
  · rintro ⟨d, m, rfl, hm, hall, hid⟩
    rw [validate_of_shapes d m fn hm hall hid]
    rfl

theorem validate_missing (d mf : Doc) (fn : String)
    (hm : lookup? d "_meta" = some (.obj mf))
    (hne : required_meta_fields.filter (fun f => (lookup? mf f).isNone) ≠ []) :
    validate_workflow (.obj d) fn
      = .ok ⟨false, some (.missingFields
          (required_meta_fields.filter fun f => (lookup? mf f).isNone)), none⟩ := by
  rcases hq : required_meta_fields.filter fun f => (lookup? mf f).isNone with _ | ⟨a, as⟩
  · exact absurd hq hne
  · simp [validate_workflow, pyIn, hm, pyGetItem, missingFields_obj, hq]

/-- The catalog entry the loop builds for a valid file whose `_meta` dict is
`m` (value of `buildItem` on a dict, written out). -/
def mkItem (m : Doc) (name dir : String) : Item :=
  ⟨(lookup? m "id").getD (.str (normalize_id name)),
   (lookup? m "name").getD (.str "未命名"),
   (lookup? m "description").getD (.str ""),
   (lookup? m "author").getD (.str "未知"),
   (lookup? m "version").getD (.str "1.0.0"),
   (lookup? m "vFlowLevel").getD (.num 1),
   (lookup? m "homepage").getD (.str ""),
   (lookup? m "tags").getD (.arr []),
   (lookup? m "updated_at").getD (.str ""),
   name,
   "https://raw.githubusercontent.com/ChaoMixian/vFlow-Repos/main/workflows/" ++ name,
   dir ++ "/" ++ name⟩

theorem buildItem_obj (m : Doc) (name dir : String) :
    buildItem (.obj m) name dir = .ok (mkItem m name dir) := rfl

theorem processFile_index (dir : String) (f : JFile)
    (hn : f.name = "index.json") : processFile dir f = ⟨none, [], [], f⟩ := by
  simp [processFile, hn]

theorem processFile_good (dir : String) (nm : String) (d m : Doc)
    (hn : ¬ nm = "index.json")
    (hm : lookup? d "_meta" = some (.obj m))
    (hv : isValidB (validate_workflow (.obj d) nm) = true) :
    processFile dir ⟨nm, .json (.obj d)⟩
      = ⟨some (mkItem m nm dir), [], [],
          ⟨nm, .json (.obj (clean_workflow_for_repo d))⟩⟩ := by
  have heq := valid_eq_ok _ _ hv
  simp [processFile, hn, heq, processValid, pyDictGet, hm, cleanJson, buildItem_obj]

theorem processFile_invalid (dir : String) (nm : String) (v : JsonVal)
    (r : ValidateResult) (hn : ¬ nm = "index.json")
    (hv : validate_workflow v nm = .ok r) (hb : r.is_valid = false) :
    processFile dir ⟨nm, .json v⟩
      = ⟨none, [(nm, .validation r.error_message)], [nm], ⟨nm, .json v⟩⟩ := by
  simp [processFile, hn, hv, hb]

theorem processFile_errs_skips (dir : String) (f : JFile) :
    (processFile dir f).errs.length = (processFile dir f).skips.length := by
  obtain ⟨nm, ct⟩ := f
  by_cases hn : nm = "index.json"
  · simp [processFile, hn]
  · cases ct with
    | malformed => simp [processFile, hn]
    | json v =>
      rcases hv : validate_workflow v nm with e | r
      · simp [processFile, hn, hv]
      · by_cases hb : r.is_valid = true
        · rcases hp : processValid v nm dir with e | pr
          · simp [processFile, hn, hv, hb, hp]
          · obtain ⟨it, cl⟩ := pr
            simp [processFile, hn, hv, hb, hp]
        · simp [processFile, hn, hv, hb]

theorem processFile_item_some (dir : String) (f : JFile)
    (h : ((processFile dir f).item).isSome = true) :
    ∃ d, f.content = .json (.obj d) ∧
      (processFile dir f).outFile = ⟨f.name, .json (.obj (clean_workflow_for_repo d))⟩ := by
  obtain ⟨nm, ct⟩ := f
  by_cases hn : nm = "index.json"
  · simp [processFile, hn] at h
  · cases ct with
    | malformed => simp [processFile, hn] at h
    | json v =>
      rcases hv : validate_workflow v nm with e | r
      · simp [processFile, hn, hv] at h
      · by_cases hb : r.is_valid = true
        · rcases hp : processValid v nm dir with e | pr
          · simp [processFile, hn, hv, hb, hp] at h
          · obtain ⟨it, cl⟩ := pr
            cases v with
            | obj d =>
              have hcl : cl = .obj (clean_workflow_for_repo d) := by
                simp [processValid, pyDictGet, cleanJson] at hp
                rcases hbi : buildItem ((lookup? d "_meta").getD (.obj [])) nm dir
                  with e | item
                · rw [hbi] at hp; simp at hp
                · rw [hbi] at hp
                  simp at hp
                  exact hp.2.symm
              exact ⟨d, rfl, by simp [processFile, hn, hv, hb, hp, hcl]⟩
            | null => simp [processValid, pyDictGet] at hp
            | bool b => simp [processValid, pyDictGet] at hp
            | num n => simp [processValid, pyDictGet] at hp
            | str s => simp [processValid, pyDictGet] at hp
            | arr xs => simp [processValid, pyDictGet] at hp
        · simp [processFile, hn, hv, hb] at h

theorem validate_obj_some (d : Doc) (m : JsonVal) (fn : String)
    (hm : lookup? d "_meta" = some m) :
    validate_workflow (.obj d) fn =
      (match missingFields m required_meta_fields with
      | .error e => .error e
      | .ok missing =>
        if !missing.isEmpty then .ok ⟨false, some (.missingFields missing), none⟩
        else
          match pyGetItem m "id" with
          | .error e => .error e
          | .ok meta_id =>
            if jsonEqStr meta_id (normalize_id fn) then .ok ⟨true, none, some (.obj d)⟩
            else .ok ⟨false, some (.idMismatch (normalize_id fn) meta_id), none⟩) := by
  simp [validate_workflow, pyIn, pyGetItem, hm]

theorem lexLe_total (a : List Char) : ∀ b, lexLe a b = true ∨ lexLe b a = true := by
  induction a with
  | nil => intro b; left; simp [lexLe]
  | cons x xs ih =>
    intro b
    cases b with
    | nil => right; simp [lexLe]
    | cons y ys =>
      rcases Nat.lt_trichotomy x.toNat y.toNat with h | h | h
      · left; simp [lexLe, h]
      · rcases ih ys with h2 | h2
        · left; simp [lexLe, show ¬ x.toNat < y.toNat by omega,
            show ¬ y.toNat < x.toNat by omega, h2]
        · right; simp [lexLe, show ¬ x.toNat < y.toNat by omega,
            show ¬ y.toNat < x.toNat by omega, h2]
      · right; simp [lexLe, h]

theorem lexLe_trans (a : List Char) :
    ∀ b c, lexLe a b = true → lexLe b c = true → lexLe a c = true := by
  induction a with
  | nil => intro b c hab hbc; simp [lexLe]
  | cons x xs ih =>
    intro b c hab hbc
    cases b with
    | nil => simp [lexLe] at hab
    | cons y ys =>
      cases c with
      | nil => simp [lexLe] at hbc
      | cons z zs =>
        rcases Nat.lt_trichotomy x.toNat y.toNat with hxy | hxy | hxy <;>
          rcases Nat.lt_trichotomy y.toNat z.toNat with hyz | hyz | hyz
        · simp [lexLe, show x.toNat < z.toNat by omega]
        · simp [lexLe, show x.toNat < z.toNat by omega]
        · simp [lexLe, show ¬ y.toNat < z.toNat by omega, hyz] at hbc
        · simp [lexLe, show x.toNat < z.toNat by omega]
        · simp only [lexLe] at hab hbc ⊢
          rw [if_neg (by omega), if_neg (by omega)] at hab
          rw [if_neg (by omega), if_neg (by omega)] at hbc
          rw [if_neg (by omega), if_neg (by omega)]
          exact ih ys zs hab hbc
        · simp [lexLe, show ¬ y.toNat < z.toNat by omega, hyz] at hbc
        · simp [lexLe, show ¬ x.toNat < y.toNat by omega, hxy] at hab
        · simp [lexLe, show ¬ x.toNat < y.toNat by omega, hxy] at hab
        · simp [lexLe, show ¬ x.toNat < y.toNat by omega, hxy] at hab

instance : IsTotal Item itemLe :=
  ⟨fun a b => by
    unfold itemLe strLe
    exact lexLe_total (sortKey a).data (sortKey b).data⟩

instance : IsTrans Item itemLe :=
  ⟨fun a b c hab hbc => by
    unfold itemLe strLe at hab hbc ⊢
    exact lexLe_trans _ _ _ hab hbc⟩

theorem scanFiles_cons_index (dir : String) (c : JFile) (files : List JFile)
    (hn : c.name = "index.json") :
    scanFiles dir (c :: files)
      = ⟨(scanFiles dir files).items, (scanFiles dir files).errors,
          (scanFiles dir files).skipped_files, c :: (scanFiles dir files).outFiles⟩ := by
  simp [scanFiles, processFile_index dir c hn]

/-- Hypothesis of a good directory: every scanned file is the untouched
`index.json` or a valid, already-normalized workflow file. -/
def goodFiles (files : List JFile) : Prop :=
  ∀ f ∈ files, f.name = "index.json" ∨
    ∃ d, f.content = .json (.obj d) ∧
      isValidB (validate_workflow (.obj d) f.name) = true ∧
      clean_workflow_for_repo d = d

theorem scanFiles_normalized (dir : String) (files : List JFile)
    (H : goodFiles files) : (scanFiles dir files).outFiles = files := by
  induction files with
  | nil => rfl
  | cons f rest ih =>
    have hf := H f (List.mem_cons_self f rest)
    have hrest : goodFiles rest := fun g hg => H g (List.mem_cons_of_mem _ hg)
    by_cases hn : f.name = "index.json"
    · simp [scanFiles, processFile_index dir f hn, ih hrest]
    · rcases hf with hidx | ⟨d, hc, hv, hcl⟩
      · exact absurd hidx hn
      · obtain ⟨nm, ct⟩ := f
        simp only at hc
        subst hc
        simp only at hn hv
        obtain ⟨d', m, hdd, hm, _, _⟩ := shapes_of_valid _ _ hv
        have hdd' : d = d' := by injection hdd
        subst hdd'
        simp [scanFiles, processFile_good dir nm d m hn hm hv, hcl, ih hrest]

theorem processFile_item_id (dir : String) (f : JFile) (it : Item)
    (h : (processFile dir f).item = some it) :
    it.id = .str (normalize_id it.filename) := by
  by_cases hn0 : f.name = "index.json"
  · rw [processFile_index dir f hn0] at h
    simp at h
  · obtain ⟨nm, ct⟩ := f
    simp only at hn0
    cases ct with
    | malformed => simp [processFile, hn0] at h
    | json v =>
      rcases hv : validate_workflow v nm with e | r
      · simp [processFile, hn0, hv] at h
      · by_cases hb : r.is_valid = true
        · have hvB : isValidB (validate_workflow v nm) = true := by
            rw [hv]; exact hb
          obtain ⟨d, m, rfl, hm, hall, hid⟩ := shapes_of_valid v nm hvB
          rw [processFile_good dir nm d m hn0 hm hvB] at h
          simp at h
          rw [← h]
          simp [mkItem, hid]
        · simp [processFile, hn0, hv, hb] at h

theorem scanFiles_items_id (dir : String) (files : List JFile) :
    ∀ it ∈ (scanFiles dir files).items, it.id = .str (normalize_id it.filename) := by
  induction files with
  | nil => intro it hit; simp [scanFiles] at hit
  | cons f rest ih =>
    intro it hit
    simp only [scanFiles, List.mem_append] at hit
    rcases hit with hit | hit
    · cases ho : (processFile dir f).item with
      | none => rw [ho] at hit; simp at hit
      | some it0 =>
        rw [ho] at hit
        simp at hit
        subst hit
        exact processFile_item_id dir f it ho
    · exact ih it hit

/-! ### Concrete documents used as witness inputs -/

/-- A workflow document with an extra top-level field and a stale flag. -/
def docW1 : Doc := [("foo", .num 7), ("isEnabled", .bool true)]

/-- A `_meta` dict whose id matches the filename `good.json`. -/
def metaGood : Doc :=
  [("id", .str (normalize_id "good.json")), ("name", .str "n"),
   ("description", .str "de"), ("author", .str "au"), ("version", .str "1.0"),
   ("vFlowLevel", .num 1)]

/-- A valid document for filename `good.json`. -/
def docGood : Doc := [("_meta", .obj metaGood), ("extra", .num 5)]

/-- A `_meta` dict with only the id field. -/
def metaMiss : Doc := [("id", .str "x")]

/-- A document whose `_meta` lacks five required fields. -/
def docMiss : Doc := [("_meta", .obj metaMiss)]

/-- A `_meta` dict whose id equals the filename `a.json.json` with only its
trailing extension removed. -/
def metaCex : Doc :=
  [("id", .str "a.json"), ("name", .str "n"), ("description", .str "de"),
   ("author", .str "au"), ("version", .str "1.0"), ("vFlowLevel", .num 1)]

/-- The document carrying `metaCex`. -/
def docCex : Doc := [("_meta", .obj metaCex)]

/-- A `_meta` dict whose id matches the filename `a.json`. -/
def metaNorm : Doc :=
  [("id", .str (normalize_id "a.json")), ("name", .str "n"),
   ("description", .str "de"), ("author", .str "au"), ("version", .str "1.0"),
   ("vFlowLevel", .num 1)]

/-- A valid, already-normalized document for filename `a.json`: the three
runtime flags are present and false. -/
def docNorm : Doc :=
  [("_meta", .obj metaNorm), ("isEnabled", .bool false),
   ("isFavorite", .bool false), ("wasEnabledBeforePermissionsLost", .bool false)]

/-- The normalized file `a.json` as it sits in the directory. -/
def fileNorm : JFile := ⟨"a.json", .json (.obj docNorm)⟩

/-! ### Claim theorems -/

/-- C1: `clean_workflow_for_repo` returns a document in which the three
runtime flags `isEnabled`, `isFavorite` and `wasEnabledBeforePermissionsLost`
are present and false regardless of their prior value or absence, every other
top-level field is unchanged, and the cleaned document is exactly what the
scan loop writes back to the file on disk. -/
theorem c1_clean_forces_flags (d : Doc) :
    lookup? (clean_workflow_for_repo d) "isEnabled" = some (.bool false) ∧
    lookup? (clean_workflow_for_repo d) "isFavorite" = some (.bool false) ∧
    lookup? (clean_workflow_for_repo d) "wasEnabledBeforePermissionsLost"
      = some (.bool false) ∧
    (∀ k, k ≠ "isEnabled" → k ≠ "isFavorite" →
      k ≠ "wasEnabledBeforePermissionsLost" →
      lookup? (clean_workflow_for_repo d) k = lookup? d k) ∧
    (∀ dir nm, ((processFile dir ⟨nm, .json (.obj d)⟩).item).isSome = true →
      (processFile dir ⟨nm, .json (.obj d)⟩).outFile
        = ⟨nm, .json (.obj (clean_workflow_for_repo d))⟩) := by
  refine ⟨clean_isEnabled d, clean_isFavorite d, clean_wasEnabled d,
    fun k h1 h2 h3 => clean_other d k h1 h2 h3, ?_⟩
  intro dir nm h
  obtain ⟨d', hc, hout⟩ := processFile_item_some dir ⟨nm, .json (.obj d)⟩ h
  simp only at hc
  have hd : d = d' := by
    injection hc with h2
    injection h2
  subst hd
  exact hout

/-- Witness for C1 at a concrete document and field. -/
theorem c1_witness :
    lookup? (clean_workflow_for_repo docW1) "isEnabled" = some (.bool false) ∧
    lookup? (clean_workflow_for_repo docW1) "foo" = lookup? docW1 "foo" := by
  exact ⟨(c1_clean_forces_flags docW1).1,
    (c1_clean_forces_flags docW1).2.2.2.1 "foo" (by decide) (by decide) (by decide)⟩

/-- C2: evaluation of `normalize_id` at the failing input.  The code removes
every occurrence of the substring `.json` (Python `str.replace`), so on the
filename `a.json.json` it returns `a`, while the claim (and the docstring of
the function) expect only the trailing extension removed, giving `a.json`.
On filenames not ending in `.json` the function is the identity, as claimed. -/
theorem c2_normalize_id_replaces_all :
    normalize_id "a.json.json" = "a" ∧
    spec_strip_ext "a.json.json" = "a.json" ∧
    normalize_id "notes.txt" = "notes.txt" :=
  ⟨by decide, by decide, by decide⟩

/-- C3 counterexample: a document whose declared id equals the filename
`a.json.json` with only its trailing extension removed, and whose `_meta`
carries all six required fields, is nonetheless reported invalid, because the
code compares against `normalize_id` which removes both `.json` occurrences. -/
theorem c3_counterexample :
    lookup? metaCex "id" = some (.str (spec_strip_ext "a.json.json")) ∧
    (∀ f ∈ required_meta_fields, (lookup? metaCex f).isSome = true) ∧
    isValidB (validate_workflow (.obj docCex) "a.json.json") = false := by
  refine ⟨?_, by decide, by decide⟩
  rw [show spec_strip_ext "a.json.json" = "a.json" from by decide]
  rfl

/-- C3 (amended): `validate_workflow` reports a document valid iff the
document is a dict containing a `_meta` dict, all six required fields are
present in `_meta`, and `_meta.id` equals `normalize_id(filename)`; on
success it returns the input document itself unchanged; and when required
fields are missing the error message names exactly the missing fields, in
their required order. -/
theorem c3_validate_characterization (data : JsonVal) (fn : String) :
    (isValidB (validate_workflow data fn) = true ↔
      ∃ d m, data = .obj d ∧ lookup? d "_meta" = some (.obj m) ∧
        (∀ f ∈ required_meta_fields, (lookup? m f).isSome = true) ∧
        lookup? m "id" = some (.str (normalize_id fn))) ∧
    (isValidB (validate_workflow data fn) = true →
      validate_workflow data fn = .ok ⟨true, none, some data⟩) ∧
    (∀ d mf, data = .obj d → lookup? d "_meta" = some (.obj mf) →
      required_meta_fields.filter (fun f => (lookup? mf f).isNone) ≠ [] →
      validate_workflow data fn = .ok ⟨false, some (.missingFields
        (required_meta_fields.filter fun f => (lookup? mf f).isNone)), none⟩) :=
  ⟨valid_char data fn, valid_eq_ok data fn,
    fun d mf hd hm hne => by subst hd; exact validate_missing d mf fn hm hne⟩

/-- Witness for C3 at a valid document and at a document with missing
required fields. -/
theorem c3_witness :
    isValidB (validate_workflow (.obj docGood) "good.json") = true ∧
    validate_workflow (.obj docMiss) "x.json" = .ok ⟨false, some (.missingFields
      ["name", "description", "author", "version", "vFlowLevel"]), none⟩ := by
  constructor
  · exact (c3_validate_characterization (.obj docGood) "good.json").1.mpr
      ⟨docGood, metaGood, rfl, rfl, by decide, rfl⟩
  · exact (c3_validate_characterization (.obj docMiss) "x.json").2.2 docMiss metaMiss
      rfl rfl (by
        rw [show required_meta_fields.filter (fun f => (lookup? metaMiss f).isNone)
            = ["name", "description", "author", "version", "vFlowLevel"] from rfl]
        exact List.cons_ne_nil _ _)

/-- C4: the catalog entry sequence of a run is sorted ascending by the id
field (every entry carries a string id, compared lexicographically by code
point) and is a permutation of the scanned valid entries (the sort reorders,
never adds or drops); the run on an existing directory returns this catalog. -/
theorem c4_catalog_sorted (dir : String) (files : List JFile) (now : String) :
    List.Sorted itemLe ((run_with_dir dir files now).index.workflows) ∧
    ((run_with_dir dir files now).index.workflows).Perm
      (scanFiles dir files).items ∧
    (∀ it ∈ (run_with_dir dir files now).index.workflows,
      it.id = .str (sortKey it)) ∧
    generate_index dir (some files) now = .ok (run_with_dir dir files now) := by
  refine ⟨List.sorted_insertionSort itemLe _, List.perm_insertionSort itemLe _,
    ?_, rfl⟩
  intro it hit
  have hmem : it ∈ (scanFiles dir files).items :=
    (List.perm_insertionSort itemLe (scanFiles dir files).items).subset hit
  have hid := scanFiles_items_id dir files it hmem
  rw [hid]
  simp [sortKey, hid]

/-- C5: re-running on a valid, already-normalized set of files is idempotent:
`clean_workflow_for_repo` is idempotent on every document, the first run
leaves the files as they are, and a second run over the directory (now also
holding `index.json`, which is skipped) leaves every workflow file identical
and produces the same catalog except for the `last_updated` field. -/
theorem c5_idempotent :
    (∀ d : Doc, clean_workflow_for_repo (clean_workflow_for_repo d)
      = clean_workflow_for_repo d) ∧
    ∀ dir files t1 t2 c, goodFiles files →
      (run_with_dir dir files t1).outFiles = files ∧
      (run_with_dir dir (⟨"index.json", c⟩ :: (run_with_dir dir files t1).outFiles)
          t2).outFiles = ⟨"index.json", c⟩ :: files ∧
      (run_with_dir dir (⟨"index.json", c⟩ :: (run_with_dir dir files t1).outFiles)
          t2).index.workflows = (run_with_dir dir files t1).index.workflows ∧
      (run_with_dir dir (⟨"index.json", c⟩ :: (run_with_dir dir files t1).outFiles)
          t2).index.version = (run_with_dir dir files t1).index.version ∧
      (run_with_dir dir (⟨"index.json", c⟩ :: (run_with_dir dir files t1).outFiles)
          t2).index.total_count = (run_with_dir dir files t1).index.total_count ∧
      (run_with_dir dir (⟨"index.json", c⟩ :: (run_with_dir dir files t1).outFiles)
          t2).index.last_updated = t2 := by
  refine ⟨clean_idem, ?_⟩
  intro dir files t1 t2 c H
  have hout : (run_with_dir dir files t1).outFiles = files :=
    scanFiles_normalized dir files H
  have hscan := scanFiles_cons_index dir ⟨"index.json", c⟩ files rfl
  refine ⟨hout, ?_, ?_, rfl, ?_, rfl⟩
  · rw [hout]
    show (scanFiles dir (⟨"index.json", c⟩ :: files)).outFiles
      = ⟨"index.json", c⟩ :: files
    rw [hscan]
    simp [scanFiles_normalized dir files H]
  · rw [hout]
    show List.insertionSort itemLe (scanFiles dir (⟨"index.json", c⟩ :: files)).items
      = List.insertionSort itemLe (scanFiles dir files).items
    rw [hscan]
  · rw [hout]
    show (List.insertionSort itemLe
        (scanFiles dir (⟨"index.json", c⟩ :: files)).items).length
      = (List.insertionSort itemLe (scanFiles dir files).items).length
    rw [hscan]

/-- Witness for C5 at a concrete normalized directory. -/
theorem c5_witness :
    (run_with_dir "workflows" [fileNorm] "t1").outFiles = [fileNorm] ∧
    (run_with_dir "workflows"
        (⟨"index.json", .malformed⟩ :: (run_with_dir "workflows" [fileNorm] "t1").outFiles)
        "t2").index.workflows
      = (run_with_dir "workflows" [fileNorm] "t1").index.workflows := by
  have h := c5_idempotent.2 "workflows" [fileNorm] "t1" "t2" .malformed (by
    intro f hf
    rw [List.mem_singleton] at hf
    subst hf
    exact Or.inr ⟨docNorm, rfl, by decide, rfl⟩)
  exact ⟨h.1, h.2.2.1⟩

/-- C6: on an existing directory the process exit status is nonzero iff at
least one file produced an error during the scan; an empty directory yields a
catalog with zero total count, no entries, and exit status zero. -/
theorem c6_exit_code (dir now : String) (files : List JFile) :
    ((run_with_dir dir files now).exitCode ≠ 0 ↔ (scanFiles dir files).errors ≠ []) ∧
    (run_with_dir dir [] now).index.total_count = 0 ∧
    (run_with_dir dir [] now).index.workflows = [] ∧
    (run_with_dir dir [] now).exitCode = 0 ∧
    generate_index dir (some files) now = .ok (run_with_dir dir files now) := by
  refine ⟨?_, rfl, rfl, rfl, rfl⟩
  cases herr : (scanFiles dir files).errors with
  | nil => simp [run_with_dir, herr]
  | cons e es => simp [run_with_dir, herr]

/-- Witness for C6: a directory with one malformed file exits nonzero, an
empty directory exits zero. -/
theorem c6_witness :
    (run_with_dir "workflows" [⟨"bad.json", .malformed⟩] "t").exitCode ≠ 0 ∧
    (run_with_dir "workflows" ([] : List JFile) "t").exitCode = 0 := by
  refine ⟨?_, (c6_exit_code "workflows" "t" []).2.2.2.1⟩
  refine (c6_exit_code "workflows" "t" [⟨"bad.json", .malformed⟩]).1.mpr ?_
  rw [show (scanFiles "workflows" [⟨"bad.json", .malformed⟩]).errors
      = [("bad.json", ScanErr.jsonDecode)] from rfl]
  exact List.cons_ne_nil _ _

/-- C7: when the scan directory does not exist, `scan_directory`
short-circuits to an empty result (no items, no errors, no skipped files),
but the run then fails to open `directory/index.json` for writing and raises
`FileNotFoundError` instead of completing. -/
theorem c7_missing_dir (dir now : String) :
    scan_directory dir none = ⟨[], [], [], []⟩ ∧
    generate_index dir none now = .error .fileNotFound :=
  ⟨rfl, rfl⟩

/-- C8: a file that fails validation produces no catalog entry, one error
entry naming the file, one skipped entry, and its on-disk content is left
unchanged, both for the single loop iteration and inside any run containing
the file. -/
theorem c8_invalid_file_untouched (dir nm : String) (v : JsonVal)
    (r : ValidateResult) (hn : ¬ nm = "index.json")
    (hv : validate_workflow v nm = .ok r) (hb : r.is_valid = false) :
    processFile dir ⟨nm, .json v⟩
      = ⟨none, [(nm, .validation r.error_message)], [nm], ⟨nm, .json v⟩⟩ ∧
    ∀ files, (⟨nm, .json v⟩ : JFile) ∈ files →
      (nm, ScanErr.validation r.error_message) ∈ (scanFiles dir files).errors ∧
      nm ∈ (scanFiles dir files).skipped_files ∧
      (⟨nm, .json v⟩ : JFile) ∈ (scanFiles dir files).outFiles := by
  have hpf := processFile_invalid dir nm v r hn hv hb
  refine ⟨hpf, ?_⟩
  intro files hmem
  induction files with
  | nil => simp at hmem
  | cons g rest ih =>
    rcases List.mem_cons.mp hmem with heq | hmem'
    · rw [← heq]
      simp [scanFiles, hpf]
    · obtain ⟨h1, h2, h3⟩ := ih hmem'
      refine ⟨?_, ?_, ?_⟩
      · simp only [scanFiles, List.mem_append]
        exact Or.inr h1
      · simp only [scanFiles, List.mem_append]
        exact Or.inr h2
      · simp only [scanFiles, List.mem_cons]
        exact Or.inr h3

/-- Witness for C8 at a file missing `_meta`. -/
theorem c8_witness :
    processFile "workflows" ⟨"bad.json", .json (.obj [])⟩
      = ⟨none, [("bad.json", .validation (some .missingMeta))], ["bad.json"],
          ⟨"bad.json", .json (.obj [])⟩⟩ ∧
    ("bad.json", ScanErr.validation (some .missingMeta))
      ∈ (scanFiles "workflows" [⟨"bad.json", .json (.obj [])⟩]).errors := by
  have h := c8_invalid_file_untouched "workflows" "bad.json" (.obj [])
    ⟨false, some .missingMeta, none⟩ (by decide) rfl rfl
  exact ⟨h.1, (h.2 [⟨"bad.json", .json (.obj [])⟩] (List.mem_singleton_self _)).1⟩

/-- C9: after any run of `scan_directory`, the errors list and the skipped
files list have equal length: each loop iteration appends to both or to
neither. -/
theorem c9_errors_skipped_balance (dir : String) (oc : Option (List JFile)) :
    (scan_directory dir oc).errors.length
      = (scan_directory dir oc).skipped_files.length := by
  cases oc with
  | none => rfl
  | some files =>
    induction files with
    | nil => rfl
    | cons f rest ih =>
      simp only [scan_directory] at ih ⊢
      simp [scanFiles, processFile_errs_skips dir f, ih]

/-- C10: the validity verdict and the error message of `validate_workflow`
depend only on the `_meta` value and the filename: two documents with equal
`_meta` get the same verdict and message, whatever their other fields. -/
theorem c10_verdict_depends_only_on_meta (d1 d2 : Doc) (fn : String)
    (h : lookup? d1 "_meta" = lookup? d2 "_meta") :
    (validate_workflow (.obj d1) fn).map (fun r => (r.is_valid, r.error_message))
      = (validate_workflow (.obj d2) fn).map
          (fun r => (r.is_valid, r.error_message)) := by
  cases hm : lookup? d2 "_meta" with
  | none =>
    rw [hm] at h
    simp [validate_workflow, pyIn, pyGetItem, h, hm]
  | some m =>
    rw [hm] at h
    rw [validate_obj_some d1 m fn h, validate_obj_some d2 m fn hm]
    cases hms : missingFields m required_meta_fields with
    | error e => simp [hms]
    | ok ms =>
      cases ms with
      | nil =>
        cases hid : pyGetItem m "id" with
        | error e => simp [hms, hid]
        | ok v =>
          by_cases hjs : jsonEqStr v (normalize_id fn) = true <;>
            simp [hms, hid, hjs, Except.map]
      | cons a as => simp [hms]

/-- Witness for C10: a document with an extra field and one without. -/
theorem c10_witness :
    (validate_workflow (.obj docGood) "good.json").map
        (fun r => (r.is_valid, r.error_message))
      = (validate_workflow (.obj [("_meta", .obj metaGood)]) "good.json").map
          (fun r => (r.is_valid, r.error_message)) :=
  c10_verdict_depends_only_on_meta docGood [("_meta", .obj metaGood)] "good.json" rfl

end VFlowIndex
